import Mathlib

/-!
Verification of the coverage core of animated-coverage-LEO.py.

The embedding models the Taichi kernels over the real numbers: the f32
arithmetic of the kernels is carried out in the reals, machine integers are
Nat and Int, and the one fallible operation of the pipeline (the unguarded
f32 division by sats_per_plane in generate_orbits_3d, which produces
non-finite values when the divisor is zero) is modelled with Option.
-/

open Real

/-- Width of the plot grid in pixels (source constant PLOT_WIDTH). -/
def PLOT_WIDTH : ℕ := 1100

/-- Height of the plot grid in pixels (source constant PLOT_HEIGHT). -/
def PLOT_HEIGHT : ℕ := 550

/-- Capacity of the GPU point and area fields (source constant MAX_POINTS). -/
def MAX_POINTS : ℕ := 3000

/-- The source file's own pi constant, PI = 3.14159265359.  This is the value
used inside every kernel formula; it is close to but not equal to the exact pi
of the library trigonometric functions. -/
noncomputable def PI : ℝ := 3.14159265359

/-- A three-component real vector, modelling a ti.Vector of three f32 values. -/
abbrev Vec3 := ℝ × ℝ × ℝ

/-- The zero vector, used as the default value for list lookups. -/
def v0 : Vec3 := (0, 0, 0)

/-- Dot product of two 3-vectors (the .dot method used by the kernels). -/
def dot3 (a b : Vec3) : ℝ := a.1 * b.1 + a.2.1 * b.2.1 + a.2.2 * b.2.2

/-- Conversion of a longitude and latitude to a 3D unit vector: the formula
shared by generate_orbits_3d, compute_voronoi_spherical and render_frame. -/
noncomputable def lonLatToVec (lon lat : ℝ) : Vec3 :=
  (Real.cos lat * Real.cos lon, Real.cos lat * Real.sin lon, Real.sin lat)

/-- The atan2 function of the compute library (ti.atan2).  It is a library
primitive, so it is defined with the exact pi, not the source's PI constant. -/
noncomputable def atan2 (y x : ℝ) : ℝ :=
  if 0 < x then Real.arctan (y / x)
  else if x < 0 then
    (if 0 ≤ y then Real.arctan (y / x) + Real.pi else Real.arctan (y / x) - Real.pi)
  else
    (if 0 < y then Real.pi / 2 else if y < 0 then -(Real.pi / 2) else 0)

/-- Integer division total_sats // num_planes of generate_orbits_3d. -/
def satsPerPlane (totalSats numPlanes : ℕ) : ℕ := totalSats / numPlanes

/-- Anomaly of satellite i in generate_orbits_3d:
(sat_idx_in_plane / sats_per_plane) * 2 * PI + plane_idx * 0.5 + time_offset,
with sat_idx_in_plane = i // num_planes and plane_idx = i % num_planes. -/
noncomputable def satAnomaly (totalSats numPlanes : ℕ) (timeOffset : ℝ) (i : ℕ) : ℝ :=
  ((i / numPlanes : ℕ) : ℝ) / ((satsPerPlane totalSats numPlanes : ℕ) : ℝ) * 2 * PI
    + ((i % numPlanes : ℕ) : ℝ) * 0.5 + timeOffset

/-- RAAN of satellite i in generate_orbits_3d: (plane_idx / num_planes) * 2 * PI. -/
noncomputable def satRaan (numPlanes : ℕ) (i : ℕ) : ℝ :=
  ((i % numPlanes : ℕ) : ℝ) / ((numPlanes : ℕ) : ℝ) * 2 * PI

/-- Position written to points_3d for satellite i by generate_orbits_3d:
lat = asin(sin(inc) * sin(anomaly)),
lon = atan2(cos(inc) * sin(anomaly), cos(anomaly)) + raan,
then the shared lon/lat to Cartesian conversion. -/
noncomputable def satPos (inclinationDeg : ℝ) (totalSats numPlanes : ℕ) (timeOffset : ℝ)
    (i : ℕ) : Vec3 :=
  let inc := inclinationDeg * PI / 180
  let anomaly := satAnomaly totalSats numPlanes timeOffset i
  let lat := Real.arcsin (Real.sin inc * Real.sin anomaly)
  let lon := atan2 (Real.cos inc * Real.sin anomaly) (Real.cos anomaly) + satRaan numPlanes i
  lonLatToVec lon lat

/-- Full output of generate_orbits_3d, one entry per loop iteration
for i in range(total_sats).  The kernel performs the f32 division
sat_idx_in_plane / sats_per_plane without any guard; when sats_per_plane is
zero that division yields non-finite values that poison every coordinate of
the satellite, which is modelled by returning none for that entry. -/
noncomputable def generate_orbits_3d (inclinationDeg : ℝ) (totalSats numPlanes : ℕ)
    (timeOffset : ℝ) : List (Option Vec3) :=
  (List.range totalSats).map (fun i =>
    if satsPerPlane totalSats numPlanes = 0 then none
    else some (satPos inclinationDeg totalSats numPlanes timeOffset i))

/-- Contents of the points_3d field after generate_orbits_3d ran, as a plain
list of vectors (meaningful whenever satsPerPlane is nonzero). -/
noncomputable def sitesOf (inclinationDeg : ℝ) (totalSats numPlanes : ℕ)
    (timeOffset : ℝ) : List Vec3 :=
  (List.range totalSats).map (satPos inclinationDeg totalSats numPlanes timeOffset)

/-- Unit vector of pixel (x, y) as computed by compute_voronoi_spherical and
render_frame: u = x/W, v = y/H, lon = u*2*PI - PI, lat = (0.5 - v)*PI. -/
noncomputable def pixelVec (x y : ℕ) : Vec3 :=
  lonLatToVec ((x : ℝ) / (PLOT_WIDTH : ℝ) * 2 * PI - PI)
    ((0.5 - (y : ℝ) / (PLOT_HEIGHT : ℝ)) * PI)

/-- Latitude weight of pixel row y (init_lat_weights): cos((0.5 - y/H) * PI). -/
noncomputable def lat_weights (y : ℕ) : ℝ :=
  Real.cos ((0.5 - (y : ℝ) / (PLOT_HEIGHT : ℝ)) * PI)

/-- The kernel compute_area_weighted: it zeroes the entries of site_area with
index below total_pts, then for every pixel atomically adds the pixel's row
weight at the index read from closest_site.  The field is modelled as a
function on integer indices because the grid can hold the sentinel -1; the
commutative atomic adds are modelled by a sum over the pixels. -/
noncomputable def compute_area_weighted (prev : ℤ → ℝ) (grid : ℕ → ℕ → ℤ)
    (total_pts : ℕ) : ℤ → ℝ :=
  fun j =>
    (if 0 ≤ j ∧ j < (total_pts : ℤ) then 0 else prev j) +
      ∑ x ∈ Finset.range PLOT_WIDTH, ∑ y ∈ Finset.range PLOT_HEIGHT,
        (if grid x y = j then lat_weights y else 0)

/-- Denominator substitution of render_frame: denom = max - min, replaced by 1
when it is zero. -/
noncomputable def denomOf (min_area max_area : ℝ) : ℝ :=
  if max_area - min_area = 0 then 1 else max_area - min_area

/-- Per-pixel normalized area of render_frame:
norm = max(0, min((area - min_area) / denom, 1)). -/
noncomputable def pixNorm (area min_area max_area : ℝ) : ℝ :=
  max 0 (min ((area - min_area) / denomOf min_area max_area) 1)

/-- Colormap index of render_frame: int(norm * 511); the truncation of the
nonnegative clamped norm coincides with the floor. -/
noncomputable def lutIndex (norm : ℝ) : ℤ := ⌊norm * 511⌋

/-- Inner scan of compute_voronoi_spherical: walks the site list carrying the
running pair (max_dot, closest_idx), starting from (-1.0, -1), and replaces it
only on a strict improvement (dot > max_dot). -/
noncomputable def scanAux (p : Vec3) : List Vec3 → ℕ → ℝ × ℤ → ℝ × ℤ
  | [], _, acc => acc
  | s :: rest, k, acc =>
    if acc.1 < dot3 p s then scanAux p rest (k + 1) (dot3 p s, (k : ℤ))
    else scanAux p rest (k + 1) acc

/-- Index selected by the scan of compute_voronoi_spherical for one pixel
vector: the initial accumulator is max_dot = -1.0, closest_idx = -1. -/
noncomputable def voronoiIdx (p : Vec3) (sites : List Vec3) : ℤ :=
  (scanAux p sites 0 (-1, -1)).2

/-- Value written to closest_site x y by compute_voronoi_spherical given the
list of site vectors in points_3d. -/
noncomputable def compute_voronoi_spherical (sites : List Vec3) (x y : ℕ) : ℤ :=
  voronoiIdx (pixelVec x y) sites

/-- The assignment grid of one frame of the main loop: generate_orbits_3d
followed by compute_voronoi_spherical on the generated sites. -/
noncomputable def frameAssignment (inclinationDeg : ℝ) (totalSats numPlanes : ℕ)
    (t : ℝ) : ℕ → ℕ → ℤ :=
  fun x y => compute_voronoi_spherical (sitesOf inclinationDeg totalSats numPlanes t) x y

/-- The site-area table of one frame of the main loop: compute_area_weighted
on the frame's assignment grid with total_pts = totalSats. -/
noncomputable def frameSiteArea (inclinationDeg : ℝ) (totalSats numPlanes : ℕ)
    (t : ℝ) (prev : ℤ → ℝ) : ℤ → ℝ :=
  compute_area_weighted prev (frameAssignment inclinationDeg totalSats numPlanes t) totalSats

/-- The persistent smoothing state of the main loop (class SmoothingState). -/
structure SmoothingState where
  smooth_min : ℝ
  smooth_max : ℝ

/-- Initial smoothing state: smooth_min = 0.0, smooth_max = 100.0. -/
def initSmoothing : SmoothingState := ⟨0, 100⟩

/-- One exponential smoothing update of the main loop:
state += (target - state) * 0.1. -/
def smoothTowards (target s : ℝ) : ℝ := s + (target - s) * 0.1

/-- Insertion of a value into a sorted list of reals. -/
noncomputable def insertSorted (a : ℝ) : List ℝ → List ℝ
  | [] => [a]
  | b :: rest => if a ≤ b then a :: b :: rest else b :: insertSorted a rest

/-- Ascending insertion sort on a list of reals. -/
noncomputable def sortList : List ℝ → List ℝ
  | [] => []
  | a :: rest => insertSorted a (sortList rest)

/-- The np.percentile of a nonempty list at q (0..100) with the default linear
interpolation between the two nearest order statistics. -/
noncomputable def percentile (a : List ℝ) (q : ℝ) : ℝ :=
  let b := sortList a
  let pos := q / 100 * ((a.length : ℝ) - 1)
  let lo := (⌊pos⌋).toNat
  let hi := (⌈pos⌉).toNat
  let blo := b.getD lo 0
  let bhi := b.getD hi 0
  blo + (pos - (lo : ℝ)) * (bhi - blo)

/-- The first num_sats entries of the site-area table, the slice
site_area.to_numpy()[:num_sats] taken by the main loop. -/
noncomputable def rawAreas (table : ℤ → ℝ) (num_sats : ℕ) : List ℝ :=
  (List.range num_sats).map (fun i => table (i : ℤ))

/-- The per-frame smoothing and range computation of the main loop, written as
the source performs it: percentile targets (with fallback 0, 1 when the area
slice is empty), the two smoothing updates, then mid_area, half_range, the
beam scaling and the final render range. -/
noncomputable def frameSmoothing (st : SmoothingState) (raw_areas : List ℝ)
    (beam : ℝ) : SmoothingState × ℝ × ℝ :=
  let t_min := if 0 < raw_areas.length then percentile raw_areas 2 else 0
  let t_max := if 0 < raw_areas.length then percentile raw_areas 98 else 1
  let smooth_min := smoothTowards t_min st.smooth_min
  let smooth_max := smoothTowards t_max st.smooth_max
  let mid_area := (smooth_min + smooth_max) / 2
  let half_range := (smooth_max - smooth_min) / 2
  let scaled_half_range := half_range * beam
  (⟨smooth_min, smooth_max⟩, (mid_area - scaled_half_range, mid_area + scaled_half_range))

/-- Modelled from the spec wording of the RangeSmoother contract, for
comparison with frameSmoothing: targets are the 2nd and 98th percentiles of
the valid entries (fixed fallback range when there are none), the persistent
state moves by a tenth of its distance to the target, and the final render
range is mid minus halfRange to mid plus halfRange with
mid = (smoothMin + smoothMax)/2 and
halfRange = (smoothMax - smoothMin)/2 * beamScale, applied unconditionally. -/
noncomputable def rangeSmootherSpec (st : SmoothingState) (areas : List ℝ)
    (beamScale : ℝ) : SmoothingState × ℝ × ℝ :=
  let targetMin := if areas = [] then 0 else percentile areas 2
  let targetMax := if areas = [] then 1 else percentile areas 98
  let smoothMin := st.smooth_min + (targetMin - st.smooth_min) * 0.1
  let smoothMax := st.smooth_max + (targetMax - st.smooth_max) * 0.1
  let mid := (smoothMin + smoothMax) / 2
  let halfRange := (smoothMax - smoothMin) / 2 * beamScale
  (⟨smoothMin, smoothMax⟩, (mid - halfRange, mid + halfRange))

/-- The colormap entry i of generate_turbo_colormap. -/
noncomputable def colormap_lut (i : ℕ) : Vec3 :=
  let t := (i : ℝ) / 511
  if t < 0.15 then (0, 0, 0.5 + 0.5 * (t / 0.15))
  else if t < 0.35 then (0, (t - 0.15) / 0.2, 1)
  else if t < 0.55 then (0, 1, 1 - (t - 0.35) / 0.2)
  else if t < 0.75 then ((t - 0.55) / 0.2, 1, 0)
  else if t < 0.90 then (1, 1 - (t - 0.75) / 0.15, 0)
  else (1 - 0.5 * ((t - 0.90) / 0.1), 0, 0)

/-- The is_edge flag of render_frame for pixel (x, y): set when the right
neighbor exists and differs, or the bottom neighbor exists and differs. -/
def isEdgeFlag (grid : ℕ → ℕ → ℤ) (x y : ℕ) : Bool :=
  let e1 : Bool := false
  let e2 : Bool :=
    if x < PLOT_WIDTH - 1 ∧ grid (x + 1) y ≠ grid x y then true else e1
  let e3 : Bool :=
    if y < PLOT_HEIGHT - 1 ∧ grid x (y + 1) ≠ grid x y then true else e2
  e3

/-- Read of the points_3d field at a grid-supplied index in render_frame; a
negative index is an out-of-range field read, modelled as reading slot 0. -/
def points3dRead (sites : List Vec3) (idx : ℤ) : Vec3 := sites.getD idx.toNat v0

/-- The color render_frame writes to screen_pixels for pixel (x, y): normalize
the assigned site's area, look up the colormap, blend with the texture, then
the walls override (black) and finally the dots override (white). -/
noncomputable def renderPixel (grid : ℕ → ℕ → ℤ) (table : ℤ → ℝ) (tex : ℕ → ℕ → Vec3)
    (sites : List Vec3) (min_area max_area opacity : ℝ) (show_walls show_dots : Bool)
    (x y : ℕ) : Vec3 :=
  let idx := grid x y
  let base := tex x y
  let area := table idx
  let norm := pixNorm area min_area max_area
  let heat := colormap_lut (lutIndex norm).toNat
  let blended := (1 - opacity) • base + opacity • heat
  let walled := if show_walls = true ∧ isEdgeFlag grid x y = true
    then ((0 : ℝ), (0 : ℝ), (0 : ℝ)) else blended
  if show_dots = true ∧ 0.9997 < dot3 (pixelVec x y) (points3dRead sites idx)
    then ((1 : ℝ), (1 : ℝ), (1 : ℝ)) else walled

/-- Squared norm of the shared lon/lat conversion is one. -/
lemma lonLatToVec_unit (lon lat : ℝ) :
    dot3 (lonLatToVec lon lat) (lonLatToVec lon lat) = 1 := by
  simp only [lonLatToVec, dot3]
  linear_combination (Real.cos lat) ^ 2 * Real.sin_sq_add_cos_sq lon
    + Real.sin_sq_add_cos_sq lat

/-- Every satellite position is a unit vector (squared norm one). -/
lemma satPos_unit (inclinationDeg : ℝ) (totalSats numPlanes : ℕ) (timeOffset : ℝ) (i : ℕ) :
    dot3 (satPos inclinationDeg totalSats numPlanes timeOffset i)
        (satPos inclinationDeg totalSats numPlanes timeOffset i) = 1 := by
  simp only [satPos]
  exact lonLatToVec_unit _ _

/-- Claim C2 counterexample: with totalSats = 5 and numPlanes = 2 the kernel
produces 5 entries, not numPlanes * (totalSats div numPlanes) = 4: the
remainder satellite is generated, contrary to the claim. -/
theorem c2_remainder_cex :
    (generate_orbits_3d 0 5 2 0).length = 5 ∧ (5 : ℕ) ≠ 2 * (5 / 2) := by
  constructor
  · simp [generate_orbits_3d]
  · decide

/-- Claim C2 (amended): the loop for i in range(total_sats) generates all
totalSats satellites even when totalSats is not a multiple of numPlanes; the
integer-division split only means the remainder satellites get slot index
satsPerPlane, i.e. an anomaly a full 2 PI turn beyond slot 0, rather than
being absent.  The remainder numPlanes*(totalSats div numPlanes) < totalSats
is real, but the vectors are still produced. -/
theorem c2_remainder (inclinationDeg timeOffset : ℝ) (totalSats numPlanes : ℕ)
    (h1 : 1 ≤ numPlanes) (h2 : ¬ numPlanes ∣ totalSats) :
    (generate_orbits_3d inclinationDeg totalSats numPlanes timeOffset).length = totalSats ∧
    numPlanes * (totalSats / numPlanes) < totalSats := by
  constructor
  · simp [generate_orbits_3d]
  · have h3 := Nat.mod_add_div totalSats numPlanes
    have h4 : totalSats % numPlanes ≠ 0 := fun h => h2 (Nat.dvd_of_mod_eq_zero h)
    omega

/-- Witness for c2_remainder at totalSats = 5, numPlanes = 2. -/
theorem c2_remainder_witness :
    ((1 : ℕ) ≤ 2 ∧ ¬ (2 : ℕ) ∣ 5) ∧
    (generate_orbits_3d 0 5 2 0).length = 5 ∧ 2 * (5 / 2) < 5 :=
  ⟨⟨by norm_num, by decide⟩, c2_remainder 0 0 5 2 (by norm_num) (by decide)⟩

/-- Claim C3 counterexample: with totalSats = 1 and numPlanes = 2 the unguarded
division by sats_per_plane = 0 makes the single produced entry non-finite
(modelled none), so the kernel does not produce one finite unit vector even
though numPlanes >= 1: the claim fails when numPlanes > totalSats. -/
theorem c3_orbit_formula_cex :
    generate_orbits_3d 0 1 2 0 = [none] ∧ satsPerPlane 1 2 = 0 := by
  constructor
  · simp [generate_orbits_3d, satsPerPlane]
  · decide

/-- Claim C3 (amended): for 1 ≤ numPlanes ≤ totalSats (so satsPerPlane ≥ 1),
generate_orbits_3d produces exactly totalSats entries, entry i being the
satellite position of the stated formula (satPos, which is literally
plane = i mod numPlanes, slot = i div numPlanes, raan, anomaly, lat, lon as
claimed), and every such position has Euclidean norm 1. -/
theorem c3_orbit_formula (inclinationDeg timeOffset : ℝ) (totalSats numPlanes : ℕ)
    (h1 : 1 ≤ numPlanes) (h2 : numPlanes ≤ totalSats) :
    generate_orbits_3d inclinationDeg totalSats numPlanes timeOffset
        = (List.range totalSats).map
            (fun i => some (satPos inclinationDeg totalSats numPlanes timeOffset i)) ∧
    (generate_orbits_3d inclinationDeg totalSats numPlanes timeOffset).length = totalSats ∧
    (∀ i, dot3 (satPos inclinationDeg totalSats numPlanes timeOffset i)
            (satPos inclinationDeg totalSats numPlanes timeOffset i) = 1 ∧
          Real.sqrt (dot3 (satPos inclinationDeg totalSats numPlanes timeOffset i)
            (satPos inclinationDeg totalSats numPlanes timeOffset i)) = 1) := by
  have hspp : ¬ satsPerPlane totalSats numPlanes = 0 := by
    have h0 : 0 < numPlanes := h1
    have := (Nat.one_le_div_iff h0).mpr h2
    unfold satsPerPlane
    omega
  refine ⟨?_, by simp [generate_orbits_3d], ?_⟩
  · simp [generate_orbits_3d, hspp]
  · intro i
    refine ⟨satPos_unit _ _ _ _ _, ?_⟩
    rw [satPos_unit, Real.sqrt_one]

/-- Witness for c3_orbit_formula at totalSats = 2, numPlanes = 1. -/
theorem c3_orbit_formula_witness :
    ((1 : ℕ) ≤ 1 ∧ (1 : ℕ) ≤ 2) ∧ (generate_orbits_3d 0 2 1 0).length = 2 :=
  ⟨⟨le_refl 1, by norm_num⟩, (c3_orbit_formula 0 0 2 1 (le_refl 1) (by norm_num)).2.1⟩

/-- Claim C10: when numPlanes > totalSats ≥ 1 the integer division yields
satsPerPlane = 0, the unguarded kernel division by it makes every produced
entry non-finite (none), and finite output (satsPerPlane nonzero) holds
exactly under the precondition numPlanes ≤ totalSats. -/
theorem c10_unguarded_division (inclinationDeg timeOffset : ℝ) (totalSats numPlanes : ℕ)
    (h1 : 1 ≤ totalSats) (h2 : totalSats < numPlanes) :
    satsPerPlane totalSats numPlanes = 0 ∧
    generate_orbits_3d inclinationDeg totalSats numPlanes timeOffset
      = (List.range totalSats).map (fun _ => (none : Option Vec3)) ∧
    (∀ q, 1 ≤ q → (satsPerPlane totalSats q ≠ 0 ↔ q ≤ totalSats)) := by
  have h0 : satsPerPlane totalSats numPlanes = 0 := Nat.div_eq_of_lt h2
  refine ⟨h0, by simp [generate_orbits_3d, h0], ?_⟩
  intro q hq
  have hq0 : 0 < q := hq
  unfold satsPerPlane
  constructor
  · intro hne
    by_contra hgt
    exact hne (Nat.div_eq_of_lt (by omega))
  · intro hle hdiv
    have := (Nat.one_le_div_iff (a := totalSats) hq0).mpr hle
    omega

/-- Witness for c10_unguarded_division at totalSats = 1, numPlanes = 2. -/
theorem c10_unguarded_division_witness :
    ((1 : ℕ) ≤ 1 ∧ (1 : ℕ) < 2) ∧ satsPerPlane 1 2 = 0 :=
  ⟨⟨le_refl 1, by norm_num⟩, (c10_unguarded_division 0 0 1 2 (le_refl 1) (by norm_num)).1⟩

/-- Claim C9 counterexample: compute_area_weighted with total_pts = 1 leaves
entry 1 of the table untouched, so a value accumulated for it by an earlier
frame (here 7) survives: the table is not fully reset. -/
theorem c9_reset_cex :
    compute_area_weighted (fun j => if j = 1 then (7 : ℝ) else 0) (fun _ _ => (0 : ℤ)) 1 1
      = 7 ∧ (7 : ℝ) ≠ 0 ∧ (1 : ℤ) < (MAX_POINTS : ℤ) := by
  refine ⟨?_, by norm_num, by decide⟩
  simp [compute_area_weighted]

/-- Claim C9 (amended): compute_area_weighted resets only the first total_pts
entries before accumulating; an entry with index at or above total_pts keeps
its previous value whenever the assignment grid only holds indices below
total_pts (as the pipeline guarantees), while each entry below total_pts is
exactly the sum of the weights of the pixels assigned to it. -/
theorem c9_reset (prev : ℤ → ℝ) (grid : ℕ → ℕ → ℤ) (total_pts : ℕ)
    (hg : ∀ x, x < PLOT_WIDTH → ∀ y, y < PLOT_HEIGHT →
      0 ≤ grid x y ∧ grid x y < (total_pts : ℤ)) :
    (∀ j : ℤ, 0 ≤ j → j < (total_pts : ℤ) →
      compute_area_weighted prev grid total_pts j
        = ∑ x ∈ Finset.range PLOT_WIDTH, ∑ y ∈ Finset.range PLOT_HEIGHT,
            (if grid x y = j then lat_weights y else 0)) ∧
    (∀ j : ℤ, (total_pts : ℤ) ≤ j → compute_area_weighted prev grid total_pts j = prev j) := by
  constructor
  · intro j h0 h1
    simp [compute_area_weighted, h0, h1]
  · intro j hj
    have hne : ¬ (0 ≤ j ∧ j < (total_pts : ℤ)) := by omega
    unfold compute_area_weighted
    rw [if_neg hne]
    have hzero : ∑ x ∈ Finset.range PLOT_WIDTH, ∑ y ∈ Finset.range PLOT_HEIGHT,
        (if grid x y = j then lat_weights y else 0) = 0 := by
      apply Finset.sum_eq_zero
      intro x hx
      apply Finset.sum_eq_zero
      intro y hy
      rw [if_neg]
      intro heq
      have := (hg x (Finset.mem_range.mp hx) y (Finset.mem_range.mp hy)).2
      omega
    rw [hzero, add_zero]

/-- Witness for c9_reset: the constant-zero grid with total_pts = 1. -/
theorem c9_reset_witness :
    (∀ x, x < PLOT_WIDTH → ∀ y, y < PLOT_HEIGHT →
      0 ≤ (fun _ _ => (0 : ℤ)) x y ∧ (fun _ _ => (0 : ℤ)) x y < ((1 : ℕ) : ℤ)) ∧
    (∀ j : ℤ, ((1 : ℕ) : ℤ) ≤ j →
      compute_area_weighted (fun _ => (0 : ℝ)) (fun _ _ => (0 : ℤ)) 1 j = 0) := by
  have hg : ∀ x, x < PLOT_WIDTH → ∀ y, y < PLOT_HEIGHT →
      0 ≤ (fun _ _ => (0 : ℤ)) x y ∧ (fun _ _ => (0 : ℤ)) x y < ((1 : ℕ) : ℤ) := by
    intro x _ y _
    norm_num
  exact ⟨hg, (c9_reset (fun _ => (0 : ℝ)) (fun _ _ => (0 : ℤ)) 1 hg).2⟩

/-- Claim C7 counterexample: with renderMin = renderMax = 0, two pixels whose
assigned sites have areas 1 and 0 get normalized values 1 and 0, hence
different colors: coverage is not uniform in the degenerate range, contrary
to the claim's uniformity clause. -/
theorem c7_degenerate_range_cex :
    pixNorm 1 0 0 = 1 ∧ pixNorm 0 0 0 = 0 ∧ pixNorm 1 0 0 ≠ pixNorm 0 0 0 := by
  norm_num [pixNorm, denomOf]

/-- Claim C7 (amended): the degenerate-range substitution makes the divisor 1,
so the normalized value is the defined clamp(area - renderMin, 0, 1) (uniform
only when the assigned areas agree); for every input the clamped norm lies in
[0, 1] and the colormap index floor(norm * 511) lies in [0, 511]. -/
theorem c7_degenerate_range (area min_area max_area : ℝ) :
    denomOf min_area min_area = 1 ∧
    pixNorm area min_area min_area = max 0 (min (area - min_area) 1) ∧
    0 ≤ pixNorm area min_area max_area ∧ pixNorm area min_area max_area ≤ 1 ∧
    0 ≤ lutIndex (pixNorm area min_area max_area) ∧
    lutIndex (pixNorm area min_area max_area) ≤ 511 := by
  have hd : denomOf min_area min_area = 1 := by simp [denomOf]
  have h0 : 0 ≤ pixNorm area min_area max_area := le_max_left 0 _
  have h1 : pixNorm area min_area max_area ≤ 1 :=
    max_le (by norm_num) (min_le_right _ 1)
  refine ⟨hd, ?_, h0, h1, ?_, ?_⟩
  · rw [pixNorm, hd, div_one]
  · rw [lutIndex]
    rw [Int.le_floor]
    push_cast
    nlinarith
  · rw [lutIndex]
    have h511 : pixNorm area min_area max_area * 511 ≤ 511 := by nlinarith
    calc ⌊pixNorm area min_area max_area * 511⌋ ≤ ⌊(511 : ℝ)⌋ := Int.floor_le_floor h511
    _ = 511 := by norm_num

/-- Claim C5: the source's per-frame smoothing and range computation equals
the spec's RangeSmoother contract, both on the slice of the first num_sats
table entries and on any list of areas: percentile targets with the fixed
fallback, the two 0.1 updates, and the render range written as
mid - halfRange to mid + halfRange with halfRange scaled by beamScale
unconditionally. -/
theorem c5_range_smoother (st : SmoothingState) (table : ℤ → ℝ) (num_sats : ℕ)
    (beam : ℝ) :
    frameSmoothing st (rawAreas table num_sats) beam
      = rangeSmootherSpec st (rawAreas table num_sats) beam ∧
    (∀ areas : List ℝ, frameSmoothing st areas beam = rangeSmootherSpec st areas beam) := by
  have hall : ∀ areas : List ℝ,
      frameSmoothing st areas beam = rangeSmootherSpec st areas beam := by
    intro areas
    rcases areas with _ | ⟨a, rest⟩
    · simp [frameSmoothing, rangeSmootherSpec, smoothTowards]
    · simp only [frameSmoothing, rangeSmootherSpec, smoothTowards, List.length_cons]
      have hpos : 0 < rest.length + 1 := Nat.succ_pos _
      have hne : ¬ (a :: rest = []) := List.cons_ne_nil a rest
      rw [if_pos hpos, if_pos hpos, if_neg hne, if_neg hne]
  exact ⟨hall _, hall⟩

/-- Sixty-odd iterations of the smoothing update shrink the distance to a held
target by exactly 0.9 per step. -/
lemma smoothTowards_iterate (t s : ℝ) :
    ∀ n : ℕ, (smoothTowards t)^[n] s - t = 0.9 ^ n * (s - t) := by
  intro n
  induction n with
  | zero => simp
  | succ n ih =>
    rw [Function.iterate_succ_apply', smoothTowards]
    rw [pow_succ]
    nlinarith [ih]

/-- Claim C6 counterexample: starting from the initial state value 100 (the
default smooth_max) with the target held at 0, the error after 60 frames is
0.9 to the 60th times 100, which is about 0.18: far more than 1e-3; even 100
frames are not enough.  The claimed arrival within 1e-3 after about 60 frames
fails for realistic initial errors. -/
theorem c6_smoothing_convergence_cex :
    (1 : ℝ) / 1000 < |(smoothTowards 0)^[60] 100 - 0| ∧
    (1 : ℝ) / 1000 < |(smoothTowards 0)^[100] 100 - 0| := by
  have h60 := smoothTowards_iterate 0 100 60
  have h100 := smoothTowards_iterate 0 100 100
  constructor
  · rw [h60, abs_of_pos (by positivity)]
    norm_num
  · rw [h100, abs_of_pos (by positivity)]
    norm_num

/-- Claim C6 (amended): each smoothing update multiplies the distance to a
held target by exactly 0.9, so after n frames the initial error is multiplied
by 0.9 to the n; an initial error of at most one half is brought within 1e-3
of the target after 60 frames (larger initial errors need proportionally more
frames). -/
theorem c6_smoothing_convergence (t s : ℝ) :
    |smoothTowards t s - t| = 0.9 * |s - t| ∧
    (∀ n : ℕ, |(smoothTowards t)^[n] s - t| = 0.9 ^ n * |s - t|) ∧
    (|s - t| ≤ 1 / 2 → |(smoothTowards t)^[60] s - t| ≤ 1 / 1000) := by
  have hgeom : ∀ n : ℕ, |(smoothTowards t)^[n] s - t| = 0.9 ^ n * |s - t| := by
    intro n
    rw [smoothTowards_iterate, abs_mul, abs_of_pos (a := (0.9 : ℝ) ^ n) (by positivity)]
  refine ⟨?_, hgeom, ?_⟩
  · have h1 := hgeom 1
    simpa using h1
  · intro hs
    rw [hgeom 60]
    have hp : (0.9 : ℝ) ^ 60 ≤ 1 / 500 := by norm_num
    nlinarith [pow_pos (show (0 : ℝ) < 0.9 by norm_num) 60]

/-- Witness for c6_smoothing_convergence with s = 1/2, t = 0. -/
theorem c6_smoothing_convergence_witness :
    |(1 / 2 : ℝ) - 0| ≤ 1 / 2 ∧ |(smoothTowards 0)^[60] (1 / 2) - 0| ≤ 1 / 1000 := by
  have hs : |(1 / 2 : ℝ) - 0| ≤ 1 / 2 := by
    rw [sub_zero, abs_of_nonneg (by norm_num : (0 : ℝ) ≤ 1 / 2)]
  exact ⟨hs, (c6_smoothing_convergence 0 (1 / 2)).2.2 hs⟩

/-- Claim C8 counterexample: on a grid striped by rows, the pixel in the last
column (x = PLOT_WIDTH - 1 = 1099) of row 0 is edge-flagged through its bottom
neighbor, contradicting the claim that grid-edge pixels at the last
row/column are never flagged. -/
theorem c8_boundary_overlay_cex :
    isEdgeFlag (fun _ y => (y : ℤ)) (PLOT_WIDTH - 1) 0 = true ∧
    PLOT_WIDTH - 1 = 1099 := by
  constructor
  · simp [isEdgeFlag, PLOT_WIDTH, PLOT_HEIGHT]
  · norm_num [PLOT_WIDTH]

/-- Claim C8 (amended): with showWalls on, a pixel is edge-flagged exactly
when an existing right neighbor or an existing bottom neighbor has a
different assignment (no out-of-bounds neighbor is consulted); the
bottom-right corner pixel, which has neither neighbor, is never flagged; and
an edge-flagged pixel is forced to the fixed wall color, overriding the
blended color (dots disabled). -/
theorem c8_boundary_overlay (grid : ℕ → ℕ → ℤ) (x y : ℕ) :
    (isEdgeFlag grid x y = true ↔
      ((x < PLOT_WIDTH - 1 ∧ grid (x + 1) y ≠ grid x y) ∨
       (y < PLOT_HEIGHT - 1 ∧ grid x (y + 1) ≠ grid x y))) ∧
    (¬ x < PLOT_WIDTH - 1 → ¬ y < PLOT_HEIGHT - 1 → isEdgeFlag grid x y = false) ∧
    (∀ (table : ℤ → ℝ) (tex : ℕ → ℕ → Vec3) (sites : List Vec3)
        (min_area max_area opacity : ℝ),
      isEdgeFlag grid x y = true →
        renderPixel grid table tex sites min_area max_area opacity true false x y
          = ((0 : ℝ), (0 : ℝ), (0 : ℝ))) := by
  refine ⟨?_, ?_, ?_⟩
  · unfold isEdgeFlag
    split_ifs with hb hr hr <;> simp_all
  · intro hx hy
    have h1 : ¬ (x < PLOT_WIDTH - 1 ∧ grid (x + 1) y ≠ grid x y) := fun h => hx h.1
    have h2 : ¬ (y < PLOT_HEIGHT - 1 ∧ grid x (y + 1) ≠ grid x y) := fun h => hy h.1
    simp only [isEdgeFlag]
    rw [if_neg h2, if_neg h1]
  · intro table tex sites min_area max_area opacity hedge
    simp [renderPixel, hedge]

/-- Witness for c8_boundary_overlay: concrete row-striped grid at pixel (0,0),
which is edge-flagged by its bottom neighbor and rendered as the wall color. -/
theorem c8_boundary_overlay_witness :
    isEdgeFlag (fun _ y => (y : ℤ)) 0 0 = true ∧
    renderPixel (fun _ y => (y : ℤ)) (fun _ => 0) (fun _ _ => v0) [] 0 0 0 true false 0 0
      = ((0 : ℝ), (0 : ℝ), (0 : ℝ)) := by
  have hedge : isEdgeFlag (fun _ y => (y : ℤ)) 0 0 = true := by
    simp [isEdgeFlag, PLOT_WIDTH, PLOT_HEIGHT]
  exact ⟨hedge,
    (c8_boundary_overlay (fun _ y => (y : ℤ)) 0 0).2.2 (fun _ => 0) (fun _ _ => v0) [] 0 0 0 hedge⟩

/-- If no site of the remaining list strictly beats the accumulated maximum,
the scan leaves the accumulator unchanged. -/
lemma scanAux_no_gain (p : Vec3) (l : List Vec3) :
    ∀ (k : ℕ) (m : ℝ) (b : ℤ),
      (∀ j, j < l.length → dot3 p (l.getD j v0) ≤ m) →
      scanAux p l k (m, b) = (m, b) := by
  induction l with
  | nil =>
    intro k m b _
    simp [scanAux]
  | cons s rest ih =>
    intro k m b h
    have h0 : dot3 p s ≤ m := by
      have := h 0 (by simp)
      simpa using this
    simp only [scanAux]
    rw [if_neg (not_lt.mpr h0)]
    apply ih
    intro j hj
    have := h (j + 1) (by simpa using Nat.succ_lt_succ hj)
    simpa using this

/-- The scan computes the first index attaining the maximum dot product of
the list, provided some element strictly beats the initial maximum. -/
lemma scanAux_argmax (p : Vec3) (l : List Vec3) :
    ∀ (k : ℕ) (m : ℝ) (b : ℤ),
      (∃ j, j < l.length ∧ m < dot3 p (l.getD j v0)) →
      ∃ i, i < l.length ∧
        scanAux p l k (m, b) = (dot3 p (l.getD i v0), (k : ℤ) + i) ∧
        (∀ j, j < l.length → dot3 p (l.getD j v0) ≤ dot3 p (l.getD i v0)) ∧
        (∀ j, j < i → dot3 p (l.getD j v0) < dot3 p (l.getD i v0)) ∧
        m < dot3 p (l.getD i v0) := by
  induction l with
  | nil =>
    intro k m b h
    obtain ⟨j, hj, _⟩ := h
    simp at hj
  | cons s rest ih =>
    intro k m b h
    by_cases hm : m < dot3 p s
    · simp only [scanAux]
      rw [if_pos hm]
      by_cases hr : ∃ j, j < rest.length ∧ dot3 p s < dot3 p (rest.getD j v0)
      · obtain ⟨i, hi, heq, hmax, hfirst, hgt⟩ := ih (k + 1) (dot3 p s) (k : ℤ) hr
        refine ⟨i + 1, by simpa using Nat.succ_lt_succ hi, ?_, ?_, ?_, ?_⟩
        · rw [heq]
          simp only [List.getD_cons_succ]
          congr 1
          push_cast
          ring
        · intro j hj
          match j with
          | 0 => simpa using le_of_lt hgt
          | j + 1 =>
            have := hmax j (by simpa using Nat.lt_of_succ_lt_succ hj)
            simpa using this
        · intro j hj
          match j with
          | 0 => simpa using hgt
          | j + 1 =>
            have := hfirst j (Nat.lt_of_succ_lt_succ hj)
            simpa using this
        · simp only [List.getD_cons_succ]
          exact lt_trans hm hgt
      · push_neg at hr
        have hstop := scanAux_no_gain p rest (k + 1) (dot3 p s) (k : ℤ) hr
        refine ⟨0, by simp, ?_, ?_, ?_, ?_⟩
        · rw [hstop]
          simp
        · intro j hj
          match j with
          | 0 => simp
          | j + 1 =>
            have := hr j (by simpa using Nat.lt_of_succ_lt_succ hj)
            simpa using this
        · intro j hj
          omega
        · simpa using hm
    · simp only [scanAux]
      rw [if_neg hm]
      have hr : ∃ j, j < rest.length ∧ m < dot3 p (rest.getD j v0) := by
        obtain ⟨j, hj, hdj⟩ := h
        match j with
        | 0 =>
          exfalso
          apply hm
          simpa using hdj
        | j + 1 =>
          exact ⟨j, by simpa using Nat.lt_of_succ_lt_succ hj, by simpa using hdj⟩
      obtain ⟨i, hi, heq, hmax, hfirst, hgt⟩ := ih (k + 1) m b hr
      have hsle : dot3 p s ≤ m := not_lt.mp hm
      refine ⟨i + 1, by simpa using Nat.succ_lt_succ hi, ?_, ?_, ?_, ?_⟩
      · rw [heq]
        simp only [List.getD_cons_succ]
        congr 1
        push_cast
        ring
      · intro j hj
        match j with
        | 0 =>
          simp only [List.getD_cons_zero, List.getD_cons_succ]
          exact le_trans hsle (le_of_lt hgt)
        | j + 1 =>
          have := hmax j (by simpa using Nat.lt_of_succ_lt_succ hj)
          simpa using this
      · intro j hj
        match j with
        | 0 =>
          simp only [List.getD_cons_zero, List.getD_cons_succ]
          exact lt_of_le_of_lt hsle hgt
        | j + 1 =>
          have := hfirst j (Nat.lt_of_succ_lt_succ hj)
          simpa using this
      · simp only [List.getD_cons_succ]
        exact hgt

/-- The Voronoi scan with its initial accumulator (-1.0, -1): whenever some
site has dot product strictly above -1 with the pixel vector, the selected
index is the lowest index attaining the maximum dot product. -/
lemma voronoiIdx_spec (p : Vec3) (sites : List Vec3)
    (h : ∃ k, k < sites.length ∧ -1 < dot3 p (sites.getD k v0)) :
    ∃ i, i < sites.length ∧ voronoiIdx p sites = (i : ℤ) ∧
      (∀ j, j < sites.length → dot3 p (sites.getD j v0) ≤ dot3 p (sites.getD i v0)) ∧
      (∀ j, j < i → dot3 p (sites.getD j v0) < dot3 p (sites.getD i v0)) := by
  obtain ⟨i, hi, heq, hmax, hfirst, _⟩ := scanAux_argmax p sites 0 (-1) (-1) h
  refine ⟨i, hi, ?_, hmax, hfirst⟩
  unfold voronoiIdx
  rw [heq]
  simp

/-- On the principal branch the library atan2 inverts the sin/cos pair. -/
lemma atan2_sin_cos (t : ℝ) (h1 : -(Real.pi / 2) < t) (h2 : t < Real.pi / 2) :
    atan2 (Real.sin t) (Real.cos t) = t := by
  have hc : 0 < Real.cos t := Real.cos_pos_of_mem_Ioo ⟨h1, h2⟩
  unfold atan2
  rw [if_pos hc, ← Real.tan_eq_sin_div_cos, Real.arctan_tan h1 h2]

/-- The pixel at x = 0, y = 275 sits on the equator row of the grid: its unit
vector evaluates to (cos PI, -sin PI, 0). -/
lemma pixelVec_0_275 : pixelVec 0 275 = (Real.cos PI, -Real.sin PI, 0) := by
  unfold pixelVec lonLatToVec
  have hx : ((0 : ℕ) : ℝ) / (PLOT_WIDTH : ℝ) * 2 * PI - PI = -PI := by
    norm_num
  have hy : (0.5 - ((275 : ℕ) : ℝ) / (PLOT_HEIGHT : ℝ)) * PI = 0 := by
    norm_num [PLOT_HEIGHT]
  rw [hx, hy]
  simp [Real.cos_neg, Real.sin_neg]

/-- Claim C4: given some site with dot product strictly above -1 against the
pixel vector, compute_voronoi_spherical writes the lowest index attaining the
maximum dot product for the pixel. -/
theorem c4_nearest_site (sites : List Vec3) (x y : ℕ)
    (h : ∃ k, k < sites.length ∧ -1 < dot3 (pixelVec x y) (sites.getD k v0)) :
    ∃ i, i < sites.length ∧ compute_voronoi_spherical sites x y = (i : ℤ) ∧
      (∀ j, j < sites.length →
        dot3 (pixelVec x y) (sites.getD j v0) ≤ dot3 (pixelVec x y) (sites.getD i v0)) ∧
      (∀ j, j < i →
        dot3 (pixelVec x y) (sites.getD j v0) < dot3 (pixelVec x y) (sites.getD i v0)) :=
  voronoiIdx_spec (pixelVec x y) sites h

/-- Claim C4 counterexample: for the equator pixel (0, 275) and the single
unit site exactly antipodal to its pixel vector, the dot product is exactly
-1, the strict comparison against the initial max_dot = -1.0 never fires, and
the kernel writes the sentinel -1 instead of the maximizing index 0. -/
theorem c4_nearest_site_cex :
    compute_voronoi_spherical [(-Real.cos PI, Real.sin PI, 0)] 0 275 = -1 ∧
    dot3 (-Real.cos PI, Real.sin PI, 0) (-Real.cos PI, Real.sin PI, 0) = 1 ∧
    (-1 : ℤ) ≠ 0 := by
  have hdot : dot3 (pixelVec 0 275) (-Real.cos PI, Real.sin PI, 0) = -1 := by
    rw [pixelVec_0_275]
    unfold dot3
    simp only
    linear_combination - Real.sin_sq_add_cos_sq PI
  refine ⟨?_, ?_, by decide⟩
  · unfold compute_voronoi_spherical voronoiIdx
    simp only [scanAux, hdot]
    rw [if_neg (lt_irrefl (-1 : ℝ))]
  · unfold dot3
    simp only
    linear_combination Real.sin_sq_add_cos_sq PI

/-- Witness for c4_nearest_site: the north-pole site seen from pixel (0, 275)
has dot product 0 with the pixel vector, strictly above -1. -/
theorem c4_nearest_site_witness :
    (∃ k, k < ([((0 : ℝ), (0 : ℝ), (1 : ℝ))] : List Vec3).length ∧
      -1 < dot3 (pixelVec 0 275) (([((0 : ℝ), (0 : ℝ), (1 : ℝ))] : List Vec3).getD k v0)) ∧
    (∃ i, i < ([((0 : ℝ), (0 : ℝ), (1 : ℝ))] : List Vec3).length ∧
      compute_voronoi_spherical [((0 : ℝ), (0 : ℝ), (1 : ℝ))] 0 275 = (i : ℤ) ∧
      (∀ j, j < ([((0 : ℝ), (0 : ℝ), (1 : ℝ))] : List Vec3).length →
        dot3 (pixelVec 0 275) (([((0 : ℝ), (0 : ℝ), (1 : ℝ))] : List Vec3).getD j v0)
          ≤ dot3 (pixelVec 0 275) (([((0 : ℝ), (0 : ℝ), (1 : ℝ))] : List Vec3).getD i v0)) ∧
      (∀ j, j < i →
        dot3 (pixelVec 0 275) (([((0 : ℝ), (0 : ℝ), (1 : ℝ))] : List Vec3).getD j v0)
          < dot3 (pixelVec 0 275) (([((0 : ℝ), (0 : ℝ), (1 : ℝ))] : List Vec3).getD i v0))) := by
  have hk : ∃ k, k < ([((0 : ℝ), (0 : ℝ), (1 : ℝ))] : List Vec3).length ∧
      -1 < dot3 (pixelVec 0 275) (([((0 : ℝ), (0 : ℝ), (1 : ℝ))] : List Vec3).getD k v0) := by
    refine ⟨0, by norm_num, ?_⟩
    rw [pixelVec_0_275]
    unfold dot3
    norm_num
  exact ⟨hk, c4_nearest_site [((0 : ℝ), (0 : ℝ), (1 : ℝ))] 0 275 hk⟩

/-- Claim C1: provided every pixel sees some generated site with dot product
strictly above -1 (no pixel vector antipodal to all sites), every cell of the
frame's assignment grid holds an index in [0, totalSats), and the sum of the
site-area table over those indices equals the sum over all pixels of their
row weight, i.e. the weight-table sum times the grid width. -/
theorem c1_coverage (inclinationDeg t : ℝ) (totalSats numPlanes : ℕ) (prev : ℤ → ℝ)
    (h : ∀ x, x < PLOT_WIDTH → ∀ y, y < PLOT_HEIGHT →
      ∃ k, k < totalSats ∧
        -1 < dot3 (pixelVec x y) ((sitesOf inclinationDeg totalSats numPlanes t).getD k v0)) :
    (∀ x, x < PLOT_WIDTH → ∀ y, y < PLOT_HEIGHT →
      0 ≤ frameAssignment inclinationDeg totalSats numPlanes t x y ∧
      frameAssignment inclinationDeg totalSats numPlanes t x y < (totalSats : ℤ)) ∧
    (∑ i ∈ Finset.range totalSats,
        frameSiteArea inclinationDeg totalSats numPlanes t prev (i : ℤ)
      = ∑ y ∈ Finset.range PLOT_HEIGHT, (PLOT_WIDTH : ℝ) * lat_weights y) := by
  have hlen : (sitesOf inclinationDeg totalSats numPlanes t).length = totalSats := by
    simp [sitesOf]
  have hrange : ∀ x, x < PLOT_WIDTH → ∀ y, y < PLOT_HEIGHT →
      0 ≤ frameAssignment inclinationDeg totalSats numPlanes t x y ∧
      frameAssignment inclinationDeg totalSats numPlanes t x y < (totalSats : ℤ) := by
    intro x hx y hy
    obtain ⟨k, hk, hdk⟩ := h x hx y hy
    obtain ⟨i, hi, heq, _, _⟩ :=
      voronoiIdx_spec (pixelVec x y) (sitesOf inclinationDeg totalSats numPlanes t)
        ⟨k, by rw [hlen]; exact hk, hdk⟩
    have hass : frameAssignment inclinationDeg totalSats numPlanes t x y = (i : ℤ) := by
      simp only [frameAssignment, compute_voronoi_spherical]
      exact heq
    rw [hass]
    constructor
    · exact Int.natCast_nonneg i
    · exact_mod_cast hlen ▸ hi
  refine ⟨hrange, ?_⟩
  have hsum1 : ∀ i ∈ Finset.range totalSats,
      frameSiteArea inclinationDeg totalSats numPlanes t prev (i : ℤ)
        = ∑ x ∈ Finset.range PLOT_WIDTH, ∑ y ∈ Finset.range PLOT_HEIGHT,
            (if frameAssignment inclinationDeg totalSats numPlanes t x y = (i : ℤ)
              then lat_weights y else 0) := by
    intro i hi
    have h0 : (0 : ℤ) ≤ (i : ℤ) := Int.natCast_nonneg i
    have h1 : (i : ℤ) < (totalSats : ℤ) := by exact_mod_cast Finset.mem_range.mp hi
    simp only [frameSiteArea, compute_area_weighted]
    rw [if_pos ⟨h0, h1⟩, zero_add]
  have hinner : ∀ x, x < PLOT_WIDTH → ∀ y, y < PLOT_HEIGHT →
      ∑ i ∈ Finset.range totalSats,
        (if frameAssignment inclinationDeg totalSats numPlanes t x y = (i : ℤ)
          then lat_weights y else 0) = lat_weights y := by
    intro x hx y hy
    obtain ⟨hge, hlt⟩ := hrange x hx y hy
    set g := frameAssignment inclinationDeg totalSats numPlanes t x y with hgdef
    have htn : g.toNat < totalSats := by omega
    have hcond : ∀ i : ℕ, (g = (i : ℤ)) ↔ (g.toNat = i) := by
      intro i
      omega
    calc ∑ i ∈ Finset.range totalSats, (if g = (i : ℤ) then lat_weights y else 0)
        = ∑ i ∈ Finset.range totalSats, (if g.toNat = i then lat_weights y else 0) := by
          apply Finset.sum_congr rfl
          intro i _
          exact if_congr (hcond i) rfl rfl
      _ = lat_weights y := by
          rw [Finset.sum_ite_eq, if_pos (Finset.mem_range.mpr htn)]
  calc ∑ i ∈ Finset.range totalSats,
        frameSiteArea inclinationDeg totalSats numPlanes t prev (i : ℤ)
      = ∑ i ∈ Finset.range totalSats, ∑ x ∈ Finset.range PLOT_WIDTH,
          ∑ y ∈ Finset.range PLOT_HEIGHT,
            (if frameAssignment inclinationDeg totalSats numPlanes t x y = (i : ℤ)
              then lat_weights y else 0) := Finset.sum_congr rfl hsum1
    _ = ∑ x ∈ Finset.range PLOT_WIDTH, ∑ i ∈ Finset.range totalSats,
          ∑ y ∈ Finset.range PLOT_HEIGHT,
            (if frameAssignment inclinationDeg totalSats numPlanes t x y = (i : ℤ)
              then lat_weights y else 0) := Finset.sum_comm
    _ = ∑ x ∈ Finset.range PLOT_WIDTH, ∑ y ∈ Finset.range PLOT_HEIGHT,
          ∑ i ∈ Finset.range totalSats,
            (if frameAssignment inclinationDeg totalSats numPlanes t x y = (i : ℤ)
              then lat_weights y else 0) := by
          apply Finset.sum_congr rfl
          intro x _
          exact Finset.sum_comm
    _ = ∑ x ∈ Finset.range PLOT_WIDTH, ∑ y ∈ Finset.range PLOT_HEIGHT, lat_weights y := by
          apply Finset.sum_congr rfl
          intro x hx
          apply Finset.sum_congr rfl
          intro y hy
          exact hinner x (Finset.mem_range.mp hx) y (Finset.mem_range.mp hy)
    _ = ∑ y ∈ Finset.range PLOT_HEIGHT, ∑ x ∈ Finset.range PLOT_WIDTH, lat_weights y :=
          Finset.sum_comm
    _ = ∑ y ∈ Finset.range PLOT_HEIGHT, (PLOT_WIDTH : ℝ) * lat_weights y := by
          apply Finset.sum_congr rfl
          intro y _
          rw [Finset.sum_const, Finset.card_range, nsmul_eq_mul]

/-- The only satellite of the one-satellite, one-plane frame at time t sits on
the equator at longitude t, for t on the principal branch. -/
lemma satPos_single (t : ℝ) (h1 : -(Real.pi / 2) < t) (h2 : t < Real.pi / 2) :
    satPos 0 1 1 t 0 = (Real.cos t, Real.sin t, 0) := by
  have hanom : satAnomaly 1 1 t 0 = t := by
    norm_num [satAnomaly, satsPerPlane]
  have hraan : satRaan 1 0 = 0 := by
    norm_num [satRaan]
  simp only [satPos, hanom, hraan]
  norm_num
  rw [atan2_sin_cos t h1 h2]
  simp [lonLatToVec]

/-- Claim C1 counterexample: in the frame with inclination 0, one satellite,
one plane, time pi - PI, the satellite position is exactly antipodal to the
equator pixel (0, 275), the dot product is exactly -1, and the strict scan
leaves the sentinel: the cell holds -1, outside [0, totalSats). -/
theorem c1_coverage_cex :
    compute_voronoi_spherical (sitesOf 0 1 1 (Real.pi - PI)) 0 275 = -1 ∧
    ¬ (0 : ℤ) ≤ compute_voronoi_spherical (sitesOf 0 1 1 (Real.pi - PI)) 0 275 := by
  have hb1 : -(Real.pi / 2) < Real.pi - PI := by
    have := Real.pi_gt_d6
    unfold PI
    nlinarith
  have hb2 : Real.pi - PI < Real.pi / 2 := by
    have := Real.pi_lt_d6
    have h3 := Real.pi_gt_d6
    unfold PI
    nlinarith
  have hsites : sitesOf 0 1 1 (Real.pi - PI)
      = [(Real.cos (Real.pi - PI), Real.sin (Real.pi - PI), 0)] := by
    unfold sitesOf
    rw [show List.range 1 = [0] from rfl, List.map_cons, List.map_nil,
      satPos_single _ hb1 hb2]
  have hdot : dot3 (pixelVec 0 275) (Real.cos (Real.pi - PI), Real.sin (Real.pi - PI), 0)
      = -1 := by
    rw [pixelVec_0_275]
    unfold dot3
    simp only
    have hc := Real.cos_add PI (Real.pi - PI)
    have harg : PI + (Real.pi - PI) = Real.pi := by ring
    rw [harg, Real.cos_pi] at hc
    linarith [hc]
  have hmain : compute_voronoi_spherical (sitesOf 0 1 1 (Real.pi - PI)) 0 275 = -1 := by
    unfold compute_voronoi_spherical voronoiIdx
    rw [hsites]
    simp only [scanAux, hdot]
    rw [if_neg (lt_irrefl (-1 : ℝ))]
  refine ⟨hmain, ?_⟩
  rw [hmain]
  decide

/-- Every pixel vector is a unit vector (squared norm one). -/
lemma pixelVec_unit (x y : ℕ) : dot3 (pixelVec x y) (pixelVec x y) = 1 := by
  unfold pixelVec
  exact lonLatToVec_unit _ _

/-- Two unit vectors with dot product at most -1 are exactly antipodal. -/
lemma dot3_antipodal {p s : Vec3} (hp : dot3 p p = 1) (hs : dot3 s s = 1)
    (h : dot3 p s ≤ -1) : p.1 = -s.1 ∧ p.2.1 = -s.2.1 ∧ p.2.2 = -s.2.2 := by
  unfold dot3 at hp hs h
  have hsum : (p.1 + s.1) ^ 2 + (p.2.1 + s.2.1) ^ 2 + (p.2.2 + s.2.2) ^ 2 ≤ 0 := by
    nlinarith
  have h1 : (p.1 + s.1) ^ 2 = 0 :=
    le_antisymm (by nlinarith [sq_nonneg (p.2.1 + s.2.1), sq_nonneg (p.2.2 + s.2.2)])
      (sq_nonneg _)
  have h2 : (p.2.1 + s.2.1) ^ 2 = 0 :=
    le_antisymm (by nlinarith [sq_nonneg (p.1 + s.1), sq_nonneg (p.2.2 + s.2.2)])
      (sq_nonneg _)
  have h3 : (p.2.2 + s.2.2) ^ 2 = 0 :=
    le_antisymm (by nlinarith [sq_nonneg (p.1 + s.1), sq_nonneg (p.2.1 + s.2.1)])
      (sq_nonneg _)
  have e1 := sq_eq_zero_iff.mp h1
  have e2 := sq_eq_zero_iff.mp h2
  have e3 := sq_eq_zero_iff.mp h3
  refine ⟨by linarith, by linarith, by linarith⟩

/-- With zero inclination the satellite sits on the equator at longitude
anomaly + raan, whenever the anomaly is on the principal branch of atan2. -/
lemma satPos_inc_zero (n p : ℕ) (t : ℝ) (i : ℕ)
    (h1 : -(Real.pi / 2) < satAnomaly n p t i) (h2 : satAnomaly n p t i < Real.pi / 2) :
    satPos 0 n p t i
      = (Real.cos (satAnomaly n p t i + satRaan p i),
         Real.sin (satAnomaly n p t i + satRaan p i), 0) := by
  simp only [satPos]
  norm_num
  rw [atan2_sin_cos _ h1 h2]
  simp [lonLatToVec]

/-- The two sites of the witness frame: inclination 0, two satellites on two
planes, time 1. -/
lemma sitesOf_witness_frame :
    sitesOf 0 2 2 1
      = [(Real.cos 1, Real.sin 1, 0),
         (Real.cos (1.5 + PI), Real.sin (1.5 + PI), 0)] := by
  have hpi := Real.pi_gt_d2
  have ha0 : satAnomaly 2 2 (1 : ℝ) 0 = 1 := by
    norm_num [satAnomaly, satsPerPlane]
  have ha1 : satAnomaly 2 2 (1 : ℝ) 1 = 1.5 := by
    norm_num [satAnomaly, satsPerPlane]
  have hr0 : satRaan 2 0 = 0 := by
    norm_num [satRaan]
  have hr1 : satRaan 2 1 = PI := by
    norm_num [satRaan]
  have hs0 : satPos 0 2 2 1 0 = (Real.cos 1, Real.sin 1, 0) := by
    rw [satPos_inc_zero 2 2 1 0 (by rw [ha0]; linarith) (by rw [ha0]; linarith)]
    rw [ha0, hr0, add_zero]
  have hs1 : satPos 0 2 2 1 1 = (Real.cos (1.5 + PI), Real.sin (1.5 + PI), 0) := by
    rw [satPos_inc_zero 2 2 1 1 (by rw [ha1]; linarith) (by rw [ha1]; linarith)]
    rw [ha1, hr1]
  unfold sitesOf
  rw [show List.range 2 = [0, 1] from rfl, List.map_cons, List.map_cons, List.map_nil,
    hs0, hs1]

/-- In the witness frame the two sites are not antipodal to each other, so
every pixel has a site with dot product strictly above -1. -/
lemma witness_sites_cover (x y : ℕ) :
    ∃ k, k < 2 ∧ -1 < dot3 (pixelVec x y) ((sitesOf 0 2 2 1).getD k v0) := by
  rw [sitesOf_witness_frame]
  have hs0unit : dot3 ((Real.cos 1, Real.sin 1, 0) : Vec3)
      ((Real.cos 1, Real.sin 1, 0) : Vec3) = 1 := by
    unfold dot3
    simp only
    linear_combination Real.sin_sq_add_cos_sq 1
  have hcross : dot3 ((Real.cos 1, Real.sin 1, 0) : Vec3)
      ((Real.cos (1.5 + PI), Real.sin (1.5 + PI), 0) : Vec3) = Real.cos (PI + 0.5) := by
    unfold dot3
    simp only
    have hc := Real.cos_sub (1.5 + PI) 1
    have harg : 1.5 + PI - 1 = PI + 0.5 := by ring
    rw [harg] at hc
    linarith [hc]
  have hneg : Real.cos (PI + 0.5) < 0 := by
    apply Real.cos_neg_of_pi_div_two_lt_of_lt
    · have := Real.pi_lt_d6
      unfold PI
      nlinarith
    · have := Real.pi_gt_d6
      unfold PI
      nlinarith
  by_cases hc0 : -1 < dot3 (pixelVec x y) ((Real.cos 1, Real.sin 1, 0) : Vec3)
  · exact ⟨0, by norm_num, by simpa using hc0⟩
  · have hle : dot3 (pixelVec x y) ((Real.cos 1, Real.sin 1, 0) : Vec3) ≤ -1 :=
      not_lt.mp hc0
    obtain ⟨e1, e2, e3⟩ := dot3_antipodal (pixelVec_unit x y) hs0unit hle
    have hflip : dot3 (pixelVec x y) ((Real.cos (1.5 + PI), Real.sin (1.5 + PI), 0) : Vec3)
        = -(Real.cos (PI + 0.5)) := by
      rw [← hcross]
      unfold dot3
      rw [e1, e2, e3]
      ring
    refine ⟨1, by norm_num, ?_⟩
    simp only [List.getD_cons_succ, List.getD_cons_zero]
    rw [hflip]
    linarith

/-- Witness for c1_coverage: the frame with inclination 0, two satellites on
two planes, time 1, whose two equatorial sites are not mutually antipodal. -/
theorem c1_coverage_witness :
    (∀ x, x < PLOT_WIDTH → ∀ y, y < PLOT_HEIGHT →
      ∃ k, k < 2 ∧ -1 < dot3 (pixelVec x y) ((sitesOf 0 2 2 1).getD k v0)) ∧
    ((∀ x, x < PLOT_WIDTH → ∀ y, y < PLOT_HEIGHT →
        0 ≤ frameAssignment 0 2 2 1 x y ∧ frameAssignment 0 2 2 1 x y < (2 : ℤ)) ∧
      (∑ i ∈ Finset.range 2, frameSiteArea 0 2 2 1 (fun _ => 0) (i : ℤ)
        = ∑ y ∈ Finset.range PLOT_HEIGHT, (PLOT_WIDTH : ℝ) * lat_weights y)) := by
  have hh : ∀ x, x < PLOT_WIDTH → ∀ y, y < PLOT_HEIGHT →
      ∃ k, k < 2 ∧ -1 < dot3 (pixelVec x y) ((sitesOf 0 2 2 1).getD k v0) :=
    fun x _ y _ => witness_sites_cover x y
  exact ⟨hh, c1_coverage 0 1 2 2 (fun _ => 0) hh⟩
